import Mathlib

/-!
Shallow embedding of the Bluetooth host-stack discovery controller
(`gap/bredr_discovery_manager.cc`) and the L2CAP channel endpoint
(`l2cap/channel.cc`).  Each C++ object is modelled as an explicit state
record; each member function / HCI-event callback becomes a pure Lean
function from the state (and event data) to a new state together with the
observable outputs of that call: the HCI commands handed to the transport,
the client callbacks invoked, and the tasks posted to other dispatchers.
-/

namespace BtHost

/-! ## L2CAP channel (`l2cap/channel.cc`, `ChannelImpl`) -/

namespace L2cap

/-- An SDU payload, as a list of bytes. -/
abbrev Sdu := List Nat

/-- A PDU payload, as a list of bytes. -/
abbrev Pdu := List Nat

/-- The mutable state of one `ChannelImpl`.  Callbacks and engines are
tracked as presence booleans (`rx_cb_`, `closed_cb_`, the RX/TX engine
pair), `link` models whether the weak `link_` pointer is non-null, and
`pendingRxSdus` models the `pending_rx_sdus_` queue (front of list =
front of queue). -/
structure ChannelState where
  link : Bool
  active : Bool
  rxCb : Bool
  closedCb : Bool
  engines : Bool
  maxTxSduSize : Nat
  pendingRxSdus : List Sdu
deriving DecidableEq, Repr

/-- A channel as constructed by `ChannelImpl::ChannelImpl`: bound to a live
link, inactive, engines installed, no callbacks, empty pending queue. -/
def initChannel (maxTx : Nat) : ChannelState :=
  { link := true, active := false, rxCb := false, closedCb := false,
    engines := true, maxTxSduSize := maxTx, pendingRxSdus := [] }

/-- Result of `ChannelImpl::ActivateWithDispatcher`: the new state, the
boolean return value, and the pending SDUs drained (in order) to the
freshly registered RX callback. -/
structure ActivateResult where
  state : ChannelState
  ok : Bool
  drained : List Sdu
deriving DecidableEq, Repr

/-- `ChannelImpl::ActivateWithDispatcher`: activating on a closed link has
no effect and returns false; otherwise the channel becomes active, the
callbacks are registered, and the buffered SDUs are routed to the RX
callback in FIFO order. -/
def activate (c : ChannelState) : ActivateResult :=
  if c.link = false then ⟨c, false, []⟩
  else
    ⟨{ c with
        active := true
        rxCb := true
        closedCb := true
        pendingRxSdus := [] },
      true, c.pendingRxSdus⟩

/-- Result of `ChannelImpl::Deactivate`: the new state and whether a
`RemoveChannel` task was posted to the link's dispatcher. -/
structure DeactivateResult where
  state : ChannelState
  postedRemoveChannel : Bool
deriving DecidableEq, Repr

/-- `ChannelImpl::Deactivate`: a no-op (beyond clearing the link pointer)
on a closed link or inactive channel; otherwise clears the callbacks and
engines, posts the link-side cleanup task, and clears the link pointer. -/
def deactivate (c : ChannelState) : DeactivateResult :=
  if c.link = false ∨ c.active = false then ⟨{ c with link := false }, false⟩
  else
    ⟨{ c with
        active := false
        rxCb := false
        closedCb := false
        engines := false
        link := false }, true⟩

/-- Result of `ChannelImpl::OnClosed`: the new state and whether the closed
callback was invoked. -/
structure OnClosedResult where
  state : ChannelState
  firedClosedCb : Bool
deriving DecidableEq, Repr

/-- `ChannelImpl::OnClosed`: a no-op (beyond clearing the link pointer) on
a closed link or inactive channel; otherwise captures and clears the
closed callback and engines, deactivates, clears the link pointer, and
runs the captured closed callback exactly once.  (The code moves
`closed_cb_` out but does not clear `rx_cb_`.) -/
def onClosed (c : ChannelState) : OnClosedResult :=
  if c.link = false ∨ c.active = false then ⟨{ c with link := false }, false⟩
  else
    ⟨{ c with
        active := false
        link := false
        closedCb := false
        engines := false }, true⟩

/-- Result of `ChannelImpl::Send`: the (unchanged) state, the boolean
return value, and the SDUs handed to the TX engine (`QueueSdu`). -/
structure SendResult where
  state : ChannelState
  accepted : Bool
  handedToTx : List Sdu
deriving DecidableEq, Repr

/-- `ChannelImpl::Send`: fails with no side effect if the link is gone or
the channel is inactive; otherwise the SDU is handed to the TX engine.
The TX engine result is modelled after `BasicModeTxEngine::QueueSdu`,
which drops (returning false) SDUs larger than the maximum TX SDU size. -/
def send (c : ChannelState) (sdu : Sdu) : SendResult :=
  if c.link = false then ⟨c, false, []⟩
  else if c.active = false then ⟨c, false, []⟩
  else ⟨c, decide (sdu.length ≤ c.maxTxSduSize), [sdu]⟩

/-- `BasicModeRxEngine::ProcessPdu`: the pass-through RX engine used in
Basic Mode; every PDU immediately completes an SDU. -/
def processPduBasicMode (pdu : Pdu) : Option Sdu := some pdu

/-- Result of `ChannelImpl::HandleRxPdu`: the new state, the SDUs delivered
to the RX callback, and whether every `ZX_DEBUG_ASSERT` on the executed
path held. -/
structure RxResult where
  state : ChannelState
  delivered : List Sdu
  assertOk : Bool
deriving DecidableEq, Repr

/-- `ChannelImpl::HandleRxPdu`: a PDU arriving with the link pointer
already cleared is dropped before any processing; otherwise the RX engine
reassembles, an incomplete SDU is silently absorbed, a completed SDU is
queued when the channel is not yet active and delivered via the RX
callback when it is. -/
def handleRxPdu (c : ChannelState) (pdu : Pdu) : RxResult :=
  if c.link = false then ⟨c, [], true⟩
  else
    match processPduBasicMode pdu with
    | none => ⟨c, [], c.engines⟩
    | some sdu =>
      if c.active = false then
        ⟨{ c with pendingRxSdus := c.pendingRxSdus ++ [sdu] }, [], c.engines⟩
      else ⟨c, [sdu], c.engines && c.rxCb⟩

/-- Feed a list of PDUs through `handleRxPdu` in order, collecting the
delivered SDUs. -/
def runRx (c : ChannelState) : List Pdu → ChannelState × List Sdu
  | [] => (c, [])
  | p :: ps =>
    let r := handleRxPdu c p
    let rest := runRx r.state ps
    (rest.1, r.delivered ++ rest.2)

/-- One teardown operation on a channel: an upper-layer `Deactivate` or a
link-initiated `OnClosed`. -/
inductive TeardownOp
  | deact
  | closed
deriving DecidableEq, Repr

/-- Apply one teardown operation, reporting whether the closed callback
fired (a `Deactivate` never fires it). -/
def teardownStep (c : ChannelState) : TeardownOp → ChannelState × Bool
  | .deact => ((deactivate c).state, false)
  | .closed =>
    let r := onClosed c
    (r.state, r.firedClosedCb)

/-- Apply a sequence of teardown operations, counting how many times the
closed callback fired in total. -/
def runTeardown (c : ChannelState) : List TeardownOp → ChannelState × Nat
  | [] => (c, 0)
  | op :: ops =>
    let s := teardownStep c op
    let rest := runTeardown s.1 ops
    (rest.1, (if s.2 then 1 else 0) + rest.2)

end L2cap

/-! ## BR/EDR discovery manager (`gap/bredr_discovery_manager.cc`) -/

namespace Gap

/-- The HCI inquiry mode (`hci::InquiryMode`). -/
inductive InquiryMode
  | standard
  | rssi
  | extended
deriving DecidableEq, Repr

/-- An `hci::Status`: success, or a failure carrying an error code.  The
C++ boolean conversion (`status ? _ : _`) is `isSuccess`. -/
inductive Status
  | success
  | failure (code : Nat)
deriving DecidableEq, Repr

/-- Truthiness of an `hci::Status`. -/
def Status.isSuccess : Status → Bool
  | .success => true
  | .failure _ => false

/-- Modelled from the spec: the HCI scan-enable Inquiry bit
(`hci::ScanEnableBit::kInquiry`, value 0x01); its defining header
`hci_constants.h` is not part of the source fragment, but the spec's
"inquiry-scan enable bit" is the low bit of the Scan_Enable parameter. -/
def kInquiryScanBit : Nat := 1

/-- Modelled from the spec: `hci::kMaxNameLength` (248), the maximum local
name length of the Write-Local-Name command; its defining header is not
part of the source fragment. -/
def kMaxNameLength : Nat := 248

/-- Modelled from the spec: `hci::kExtendedInquiryResponseBytes` (240),
the fixed size of the extended-inquiry-response payload; its defining
header is not part of the source fragment. -/
def kExtendedInquiryResponseBytes : Nat := 240

/-- Modelled from the spec: `hci::kExtendedInquiryResponseMaxNameBytes`
(238 = 240 - 2), the EIR maximum the spec says the name is truncated to
(the EIR payload minus the two TLV header bytes); its defining header is
not part of the source fragment. -/
def kExtendedInquiryResponseMaxNameBytes : Nat := kExtendedInquiryResponseBytes - 2

/-- Modelled from the spec: `DataType::kCompleteLocalName` (0x09) from the
supplement-data TLV types; its defining header is not part of the source
fragment. -/
def kCompleteLocalNameType : Nat := 9

/-- Modelled from the spec: `DataType::kShortenedLocalName` (0x08) from
the supplement-data TLV types; its defining header is not part of the
source fragment. -/
def kShortenedLocalNameType : Nat := 8

/-- An HCI command handed to the transport, identified by opcode and the
payload fields the discovery manager fills in. -/
inductive HciCommand
  | writeInquiryMode (mode : InquiryMode)
  | inquiry
  | inquiryCancel
  | remoteNameRequest (peer : Nat)
  | readScanEnable
  | writeScanEnable (scanEnable : Nat)
  | writeLocalName (payload : List Nat)
  | writeExtendedInquiryResponse (payload : List Nat)
deriving DecidableEq, Repr

/-- Count the plain Inquiry commands in a command list. -/
def inquiryCount (cmds : List HciCommand) : Nat :=
  (cmds.filter (fun c => c = HciCommand.inquiry)).length

/-- One invocation of a queued discovery/discoverable callback: the
callback's identity, the status passed to it, and the session it received
(`none` models a null session pointer). -/
structure DiscoveryResult where
  cb : Nat
  status : Status
  session : Option Nat
deriving DecidableEq, Repr

/-- The state of a `BrEdrDiscoveryManager`.  Sessions and queued callbacks
are identified by numbers; `next_session` supplies fresh session
identities for `AddDiscoverySession` / `AddDiscoverableSession`.  Queues
keep their front at the head of the list. -/
structure DiscoveryManager where
  pending_discovery : List Nat
  discovering : List Nat
  zombie_discovering : List Nat
  discoverable : List Nat
  pending_discoverable : List Nat
  desired_inquiry_mode : InquiryMode
  current_inquiry_mode : InquiryMode
  requesting_names : List Nat
  next_session : Nat
deriving DecidableEq, Repr

/-- A freshly constructed manager: empty session sets and queues, the
configured desired mode, current mode `kStandard`. -/
def initialManager (mode : InquiryMode) : DiscoveryManager :=
  { pending_discovery := []
    discovering := []
    zombie_discovering := []
    discoverable := []
    pending_discoverable := []
    desired_inquiry_mode := mode
    current_inquiry_mode := InquiryMode.standard
    requesting_names := []
    next_session := 0 }

/-- `BrEdrDiscoveryManager::AddDiscoverySession`: create a fresh session
and insert it into the live discovery set. -/
def addDiscoverySession (m : DiscoveryManager) : DiscoveryManager × Nat :=
  ({ m with
      discovering := m.discovering ++ [m.next_session]
      next_session := m.next_session + 1 },
   m.next_session)

/-- `BrEdrDiscoveryManager::AddDiscoverableSession`: create a fresh
session and insert it into the discoverable set. -/
def addDiscoverableSession (m : DiscoveryManager) : DiscoveryManager × Nat :=
  ({ m with
      discoverable := m.discoverable ++ [m.next_session]
      next_session := m.next_session + 1 },
   m.next_session)

/-- `BrEdrDiscoveryManager::MaybeStartInquiry`: a no-op when no session
exists and none is waiting; otherwise sends a Write-Inquiry-Mode command
first when the desired mode differs from the current one, then the
exclusive Inquiry command.  (The current mode is updated only in the
Write-Inquiry-Mode completion callback, `onWriteInquiryModeComplete`.) -/
def maybeStartInquiry (m : DiscoveryManager) : DiscoveryManager × List HciCommand :=
  if m.pending_discovery = [] ∧ m.discovering = [] then (m, [])
  else
    let modeCmds :=
      if m.desired_inquiry_mode ≠ m.current_inquiry_mode then
        [HciCommand.writeInquiryMode m.desired_inquiry_mode]
      else []
    (m, modeCmds ++ [HciCommand.inquiry])

/-- Completion callback of the Write-Inquiry-Mode command sent by
`MaybeStartInquiry`: on success the current mode is recorded. -/
def onWriteInquiryModeComplete (m : DiscoveryManager) (st : Status) (mode : InquiryMode) :
    DiscoveryManager :=
  if st.isSuccess then { m with current_inquiry_mode := mode } else m

/-- Result of an operation on the manager: the new state, the HCI commands
sent, and the queued callbacks invoked. -/
structure RequestResult where
  manager : DiscoveryManager
  commands : List HciCommand
  results : List DiscoveryResult
deriving DecidableEq, Repr

/-- `BrEdrDiscoveryManager::RequestDiscovery`: queue behind an in-flight
start, join a running inquiry immediately with a fresh session, or queue
the callback and start the inquiry. -/
def requestDiscovery (m : DiscoveryManager) (cb : Nat) : RequestResult :=
  if m.pending_discovery ≠ [] then
    ⟨{ m with pending_discovery := m.pending_discovery ++ [cb] }, [], []⟩
  else if m.discovering ≠ [] ∨ m.zombie_discovering ≠ [] then
    let p := addDiscoverySession m
    ⟨p.1, [], [⟨cb, Status.success, some p.2⟩]⟩
  else
    let m1 := { m with pending_discovery := m.pending_discovery ++ [cb] }
    let r := maybeStartInquiry m1
    ⟨r.1, r.2, []⟩

/-- A sequence of `RequestDiscovery` calls, one per listed callback, with
the commands and invoked callbacks accumulated in order. -/
def runRequests (m : DiscoveryManager) : List Nat → RequestResult
  | [] => ⟨m, [], []⟩
  | cb :: rest =>
    let r := requestDiscovery m cb
    let rr := runRequests r.manager rest
    ⟨rr.manager, r.commands ++ rr.commands, r.results ++ rr.results⟩

/-- `BrEdrDiscoveryManager::InvalidateDiscoverySessions`: every live
session is notified of the error and the live set is cleared; the
returned list is the sessions whose error callback ran. -/
def invalidateDiscoverySessions (m : DiscoveryManager) : DiscoveryManager × List Nat :=
  ({ m with discovering := [] }, m.discovering)

/-- The drain loop over `pending_discovery_` run when the Inquiry command
resolves: each queued callback is popped and invoked with the status and,
on success, a fresh session. -/
def resolvePendingLoop (st : Status) (m : DiscoveryManager) :
    List Nat → DiscoveryManager × List DiscoveryResult
  | [] => (m, [])
  | cb :: rest =>
    if st.isSuccess then
      let p := addDiscoverySession m
      let r := resolvePendingLoop st p.1 rest
      (r.1, ⟨cb, st, some p.2⟩ :: r.2)
    else
      let r := resolvePendingLoop st m rest
      (r.1, ⟨cb, st, none⟩ :: r.2)

/-- An event delivered to the exclusive Inquiry command's callback in
`MaybeStartInquiry`: a Command-Status or Command-Complete event resolving
the start, or the eventual Inquiry-Complete event. -/
inductive InquiryEvent
  | commandStatus (st : Status)
  | commandComplete (st : Status)
  | inquiryComplete (st : Status)
deriving DecidableEq, Repr

/-- The status carried by an inquiry event (`event.ToStatus()`). -/
def InquiryEvent.status : InquiryEvent → Status
  | .commandStatus st => st
  | .commandComplete st => st
  | .inquiryComplete st => st

/-- Result of the inquiry event callback: new state, commands sent, queued
callbacks invoked, and the live sessions whose error callback ran. -/
structure InquiryEventResult where
  manager : DiscoveryManager
  commands : List HciCommand
  results : List DiscoveryResult
  erroredSessions : List Nat
deriving DecidableEq, Repr

/-- The exclusive Inquiry command callback in
`BrEdrDiscoveryManager::MaybeStartInquiry`: an error status invalidates
the live sessions and falls through; a Command-Status/Complete event
drains the pending queue (fresh session on success, null on failure); an
Inquiry-Complete event clears the zombie set, then on success restarts
the inquiry via `MaybeStartInquiry` and on failure returns. -/
def onInquiryEvent (m : DiscoveryManager) (ev : InquiryEvent) : InquiryEventResult :=
  let st := ev.status
  let inv := if st.isSuccess then (m, []) else invalidateDiscoverySessions m
  let m1 := inv.1
  match ev with
  | .commandStatus _ =>
    let r := resolvePendingLoop st { m1 with pending_discovery := [] } m1.pending_discovery
    ⟨r.1, [], r.2, inv.2⟩
  | .commandComplete _ =>
    let r := resolvePendingLoop st { m1 with pending_discovery := [] } m1.pending_discovery
    ⟨r.1, [], r.2, inv.2⟩
  | .inquiryComplete _ =>
    let m2 := { m1 with zombie_discovering := [] }
    if st.isSuccess then
      let r := maybeStartInquiry m2
      ⟨r.1, r.2, [], inv.2⟩
    else
      ⟨m2, [], [], inv.2⟩

/-- `BrEdrDiscoveryManager::RemoveDiscoverySession` (called from the
session destructor): erase the session from the live set and, exactly
when it was present there, insert it into the zombie set.  No HCI command
is sent. -/
def removeDiscoverySession (m : DiscoveryManager) (s : Nat) :
    DiscoveryManager × List HciCommand :=
  let m1 := { m with discovering := m.discovering.filter (fun x => x ≠ s) }
  if m.discovering.contains s then
    ({ m1 with zombie_discovering := m1.zombie_discovering ++ [s] }, [])
  else (m1, [])

/-- `BrEdrDiscoveryManager::SetInquiryScan`: reads the current scan-enable
state; all decisions happen in the read callback. -/
def setInquiryScan (m : DiscoveryManager) : DiscoveryManager × List HciCommand :=
  (m, [HciCommand.readScanEnable])

/-- `BrEdrDiscoveryManager::RequestDiscoverable`: queue behind an
in-flight scan-enable pass, join immediately when already discoverable,
or queue the callback and start a `SetInquiryScan` pass. -/
def requestDiscoverable (m : DiscoveryManager) (cb : Nat) : RequestResult :=
  if m.pending_discoverable ≠ [] then
    ⟨{ m with pending_discoverable := m.pending_discoverable ++ [cb] }, [], []⟩
  else if m.discoverable ≠ [] then
    let p := addDiscoverableSession m
    ⟨p.1, [], [⟨cb, Status.success, some p.2⟩]⟩
  else
    let m1 := { m with pending_discoverable := m.pending_discoverable ++ [cb] }
    let r := setInquiryScan m1
    ⟨r.1, r.2, []⟩

/-- The drain loop over `pending_discoverable_`: each queued callback is a
`status_cb` that passes a fresh discoverable session on success and null
on failure. -/
def resolveDiscoverableLoop (st : Status) (m : DiscoveryManager) :
    List Nat → DiscoveryManager × List DiscoveryResult
  | [] => (m, [])
  | cb :: rest =>
    if st.isSuccess then
      let p := addDiscoverableSession m
      let r := resolveDiscoverableLoop st p.1 rest
      (r.1, ⟨cb, st, some p.2⟩ :: r.2)
    else
      let r := resolveDiscoverableLoop st m rest
      (r.1, ⟨cb, st, none⟩ :: r.2)

/-- The Read-Scan-Enable callback in `BrEdrDiscoveryManager::SetInquiryScan`:
a failed read resolves every queued callback with the failure; otherwise
the desired inquiry-scan bit is compared with the read one, the queue is
resolved immediately when they already agree, and a Write-Scan-Enable
with the bit toggled is sent when they differ (queue resolution then
waits for the write callback). -/
def onReadScanEnable (m : DiscoveryManager) (st : Status) (scanEnable : Nat) : RequestResult :=
  if st.isSuccess = false then
    let r := resolveDiscoverableLoop st { m with pending_discoverable := [] }
      m.pending_discoverable
    ⟨r.1, [], r.2⟩
  else
    let enable : Bool := !m.discoverable.isEmpty || !m.pending_discoverable.isEmpty
    let enabled : Bool := decide (Nat.land scanEnable kInquiryScanBit ≠ 0)
    if enable = enabled then
      let r := resolveDiscoverableLoop st { m with pending_discoverable := [] }
        m.pending_discoverable
      ⟨r.1, [], r.2⟩
    else
      let newScan :=
        if enable then Nat.lor scanEnable kInquiryScanBit
        else Nat.land scanEnable (255 - kInquiryScanBit)
      ⟨m, [HciCommand.writeScanEnable newScan], []⟩

/-- The Write-Scan-Enable callback: every queued discoverable callback is
resolved with the write status. -/
def onWriteScanEnable (m : DiscoveryManager) (st : Status) : RequestResult :=
  let r := resolveDiscoverableLoop st { m with pending_discoverable := [] }
    m.pending_discoverable
  ⟨r.1, [], r.2⟩

/-- `BrEdrDiscoveryManager::RemoveDiscoverableSession`: erase the session
and, when it was the last one, run a `SetInquiryScan` (disable) pass. -/
def removeDiscoverableSession (m : DiscoveryManager) (s : Nat) :
    DiscoveryManager × List HciCommand :=
  let m1 := { m with discoverable := m.discoverable.filter (fun x => x ≠ s) }
  if m1.discoverable = [] then setInquiryScan m1 else (m1, [])

/-- A peer record in the Peer Directory: identifier, BR/EDR address,
optional name, and whether inquiry data has been recorded
(`MutBrEdr().SetInquiryData`). -/
structure Peer where
  pid : Nat
  addr : Nat
  name : Option (List Nat)
  hasInquiryData : Bool
deriving DecidableEq, Repr

/-- The Peer Directory (`PeerCache`): the peer records, and a supply of
fresh identifiers for `NewPeer`. -/
structure PeerCache where
  peers : List Peer
  nextId : Nat
deriving DecidableEq, Repr

/-- `PeerCache::FindByAddress`. -/
def PeerCache.findByAddress (c : PeerCache) (a : Nat) : Option Peer :=
  c.peers.find? (fun p => p.addr = a)

/-- `PeerCache::FindById`. -/
def PeerCache.findById (c : PeerCache) (i : Nat) : Option Peer :=
  c.peers.find? (fun p => p.pid = i)

/-- `PeerCache::NewPeer`: insert a fresh, unnamed, connectable peer. -/
def PeerCache.newPeer (c : PeerCache) (a : Nat) : PeerCache × Peer :=
  let p : Peer := ⟨c.nextId, a, none, false⟩
  ({ peers := c.peers ++ [p], nextId := c.nextId + 1 }, p)

/-- `Peer::MutBrEdr().SetInquiryData`, keyed by peer identifier. -/
def PeerCache.setInquiryData (c : PeerCache) (i : Nat) : PeerCache :=
  { c with
      peers := c.peers.map (fun p =>
        if p.pid = i then { p with hasInquiryData := true } else p) }

/-- Insertion into the `updated` result set of `ProcessInquiryResult`
(an `unordered_set`): a peer already collected is not collected twice. -/
def insertIfAbsent (x : Nat) (xs : List Nat) : List Nat :=
  if xs.contains x then xs else xs ++ [x]

/-- The response loop of `ProcessInquiryResult`: for each responding
address, find the peer record or create a fresh one, record its inquiry
data, and collect it into the updated set. -/
def processInquiryResultLoop (c : PeerCache) : List Nat → PeerCache × List Nat
  | [] => (c, [])
  | a :: rest =>
    let step : PeerCache × Nat :=
      match c.findByAddress a with
      | some p => (c, p.pid)
      | none =>
        let n := c.newPeer a
        (n.1, n.2.pid)
    let c1 := step.1.setInquiryData step.2
    let r := processInquiryResultLoop c1 rest
    (r.1, insertIfAbsent step.2 r.2)

/-- Whether the peer with the given identifier exists and has no name
(`!peer->name()`). -/
def peerUnnamed (c : PeerCache) (i : Nat) : Bool :=
  match c.findById i with
  | some p => p.name.isNone
  | none => false

/-- `BrEdrDiscoveryManager::RequestPeerName`: deduplicated by the
in-flight `requesting_names_` set and guarded by a cache lookup; on
dispatch the peer identifier is recorded as in flight and a
Remote-Name-Request command is sent. -/
def requestPeerName (m : DiscoveryManager) (c : PeerCache) (i : Nat) :
    DiscoveryManager × List HciCommand :=
  if m.requesting_names.contains i then (m, [])
  else
    match c.findById i with
    | none => (m, [])
    | some _ =>
      ({ m with requesting_names := m.requesting_names ++ [i] },
       [HciCommand.remoteNameRequest i])

/-- Result of the inquiry-result event handler: new manager and cache
states, commands sent, and the (session, peer) result notifications
fanned out to live sessions. -/
structure InquiryResultOutcome where
  manager : DiscoveryManager
  cache : PeerCache
  commands : List HciCommand
  notified : List (Nat × Nat)
deriving DecidableEq, Repr

/-- The per-updated-peer loop of `BrEdrDiscoveryManager::InquiryResult`:
request the name of each still-unnamed peer and notify every live
session of the result. -/
def inquiryResultPeersLoop (m : DiscoveryManager) (c : PeerCache) :
    List Nat → DiscoveryManager × List HciCommand × List (Nat × Nat)
  | [] => (m, [], [])
  | i :: rest =>
    let step := if peerUnnamed c i then requestPeerName m c i else (m, [])
    let notes := step.1.discovering.map (fun s => (s, i))
    let r := inquiryResultPeersLoop step.1 c rest
    (r.1, step.2 ++ r.2.1, notes ++ r.2.2)

/-- `BrEdrDiscoveryManager::InquiryResult` on a well-formed (Standard or
RSSI) inquiry-result event carrying the given responding addresses. -/
def onInquiryResult (m : DiscoveryManager) (c : PeerCache) (addrs : List Nat) :
    InquiryResultOutcome :=
  let pr := processInquiryResultLoop c addrs
  let r := inquiryResultPeersLoop m pr.1 pr.2
  ⟨r.1, pr.1, r.2.1, r.2.2⟩

/-- The Write-Local-Name command payload: the name truncated to
`kMaxNameLength` and written into a zero-filled buffer of that size. -/
def writeLocalNamePayload (name : List Nat) : List Nat :=
  let nameSize := if name.length ≥ kMaxNameLength then kMaxNameLength else name.length
  name.take nameSize ++ List.replicate (kMaxNameLength - nameSize) 0

/-- The extended-inquiry-response buffer written by
`BrEdrDiscoveryManager::UpdateEIRResponseData`: a zero-filled
`kExtendedInquiryResponseBytes` buffer whose byte 0 is
`name.length() + 1` (a `uint8_t`), byte 1 the data type (Shortened when
the name length reaches the EIR maximum, Complete otherwise), followed by
`name_size` name bytes. -/
def eirResponsePayload (name : List Nat) : List Nat :=
  let nameType :=
    if name.length ≥ kExtendedInquiryResponseMaxNameBytes then kShortenedLocalNameType
    else kCompleteLocalNameType
  let nameSize :=
    if name.length ≥ kExtendedInquiryResponseMaxNameBytes then
      kExtendedInquiryResponseMaxNameBytes
    else name.length
  ((name.length + 1) % 256) :: nameType :: name.take nameSize
    ++ List.replicate (kExtendedInquiryResponseBytes - 2 - nameSize) 0

/-- One step of the `UpdateLocalName` command sequence: the commands sent
and, when the user callback was invoked, the status it received. -/
structure LocalNameStep where
  commands : List HciCommand
  callbackStatus : Option Status
deriving DecidableEq, Repr

/-- `BrEdrDiscoveryManager::UpdateLocalName`: sends Write-Local-Name; the
user callback is only invoked later, from one of the two completion
callbacks. -/
def updateLocalName (name : List Nat) : LocalNameStep :=
  ⟨[HciCommand.writeLocalName (writeLocalNamePayload name)], none⟩

/-- The Write-Local-Name completion callback: a failure invokes the user
callback with that failure and sends nothing further; success proceeds to
`UpdateEIRResponseData`, which sends Write-Extended-Inquiry-Response. -/
def onWriteLocalNameComplete (name : List Nat) (st : Status) : LocalNameStep :=
  if st.isSuccess then
    ⟨[HciCommand.writeExtendedInquiryResponse (eirResponsePayload name)], none⟩
  else ⟨[], some st⟩

/-- The Write-Extended-Inquiry-Response completion callback: the user
callback receives the event status. -/
def onWriteEIRComplete (st : Status) : LocalNameStep := ⟨[], some st⟩

end Gap

end BtHost

open BtHost.L2cap

/-! ## Helper lemmas: L2CAP channel -/

theorem ChannelState.clear_link_eq (c : ChannelState) (h : c.link = false) :
    { c with link := false } = c := by
  cases c
  simp_all

theorem deactivate_state_link (c : ChannelState) : (deactivate c).state.link = false := by
  unfold deactivate
  split <;> rfl

theorem onClosed_state_link (c : ChannelState) : (onClosed c).state.link = false := by
  unfold onClosed
  split <;> rfl

theorem deactivate_no_link (c : ChannelState) (h : c.link = false) :
    deactivate c = ⟨c, false⟩ := by
  unfold deactivate
  rw [if_pos (Or.inl h), ChannelState.clear_link_eq c h]

theorem onClosed_no_link (c : ChannelState) (h : c.link = false) :
    onClosed c = ⟨c, false⟩ := by
  unfold onClosed
  rw [if_pos (Or.inl h), ChannelState.clear_link_eq c h]

theorem teardownStep_no_link (c : ChannelState) (op : TeardownOp) (h : c.link = false) :
    teardownStep c op = (c, false) := by
  cases op <;> simp [teardownStep, deactivate_no_link c h, onClosed_no_link c h]

theorem teardownStep_link (c : ChannelState) (op : TeardownOp) :
    (teardownStep c op).1.link = false := by
  cases op <;> simp [teardownStep, deactivate_state_link, onClosed_state_link]

theorem runTeardown_no_link (c : ChannelState) (ops : List TeardownOp) (h : c.link = false) :
    runTeardown c ops = (c, 0) := by
  induction ops with
  | nil => rfl
  | cons op rest ih =>
    simp [runTeardown, teardownStep_no_link c op h, ih]

theorem runRx_inactive (xs : List Pdu) (c : ChannelState)
    (hl : c.link = true) (ha : c.active = false) :
    runRx c xs = ({ c with pendingRxSdus := c.pendingRxSdus ++ xs }, []) := by
  induction xs generalizing c with
  | nil => simp [runRx]
  | cons p ps ih =>
    have hstep : handleRxPdu c p =
        ⟨{ c with pendingRxSdus := c.pendingRxSdus ++ [p] }, [], c.engines⟩ := by
      unfold handleRxPdu
      rw [hl]
      simp [processPduBasicMode, ha]
    simp only [runRx, hstep]
    rw [ih { c with pendingRxSdus := c.pendingRxSdus ++ [p] } hl ha]
    simp

theorem runRx_active (xs : List Pdu) (c : ChannelState)
    (hl : c.link = true) (ha : c.active = true) :
    runRx c xs = (c, xs) := by
  induction xs generalizing c with
  | nil => rfl
  | cons p ps ih =>
    have hstep : handleRxPdu c p = ⟨c, [p], c.engines && c.rxCb⟩ := by
      unfold handleRxPdu
      rw [hl]
      simp [processPduBasicMode, ha]
    simp only [runRx, hstep]
    rw [ih c hl ha]
    simp

/-! ## Claim theorems: L2CAP channel -/

/-- C7: for every channel on which `Deactivate` has been called, or whose
link is gone, `Channel::Send` returns false and has no side effect: no
SDU is handed to the TX engine and the channel state is unchanged. -/
theorem send_on_deactivated_channel_noop (c : ChannelState) (sdu : Sdu) :
    send (deactivate c).state sdu = ⟨(deactivate c).state, false, []⟩ ∧
    (c.link = false → send c sdu = ⟨c, false, []⟩) := by
  constructor
  · unfold send
    rw [deactivate_state_link c]
    simp
  · intro h
    unfold send
    rw [h]
    simp

/-- Witness for C7: concrete channel, deactivated, then sent to. -/
theorem send_on_deactivated_channel_noop_witness :
    send (deactivate (initChannel 5)).state [1, 2] =
      ⟨(deactivate (initChannel 5)).state, false, []⟩ ∧
    send { initChannel 5 with link := false } [3] =
      ⟨{ initChannel 5 with link := false }, false, []⟩ :=
  ⟨(send_on_deactivated_channel_noop (initChannel 5) [1, 2]).1,
   (send_on_deactivated_channel_noop { initChannel 5 with link := false } [3]).2 rfl⟩

/-- C10: a PDU handed to `Channel::HandleRxPdu` after the link reference
has been cleared (by `Deactivate` or `OnClosed`, or any state with the
link gone) is a total no-op: the state is unchanged, nothing is delivered
or queued, and no assertion fails. -/
theorem handleRxPdu_after_link_cleared_noop (c : ChannelState) (pdu : Pdu) :
    handleRxPdu (deactivate c).state pdu = ⟨(deactivate c).state, [], true⟩ ∧
    handleRxPdu (onClosed c).state pdu = ⟨(onClosed c).state, [], true⟩ ∧
    (c.link = false → handleRxPdu c pdu = ⟨c, [], true⟩) := by
  refine ⟨?_, ?_, ?_⟩
  · unfold handleRxPdu
    rw [deactivate_state_link c]
    simp
  · unfold handleRxPdu
    rw [onClosed_state_link c]
    simp
  · intro h
    unfold handleRxPdu
    rw [h]
    simp

/-- Witness for C10: a concrete deactivated channel drops a PDU with no
state change. -/
theorem handleRxPdu_after_link_cleared_noop_witness :
    handleRxPdu (deactivate (initChannel 5)).state [9] =
      ⟨(deactivate (initChannel 5)).state, [], true⟩ ∧
    handleRxPdu { initChannel 5 with link := false } [9] =
      ⟨{ initChannel 5 with link := false }, [], true⟩ :=
  ⟨(handleRxPdu_after_link_cleared_noop (initChannel 5) [9]).1,
   (handleRxPdu_after_link_cleared_noop { initChannel 5 with link := false } [9]).2.2 rfl⟩

/-- C9: `Deactivate` and `OnClosed` are idempotent and may run in any
order from any channel state: across any sequence of such calls the
closed callback fires at most once; a second `Deactivate` or an
`OnClosed` after `Deactivate` is a no-op that fires no callback, and
symmetrically after `OnClosed`. -/
theorem teardown_idempotent_closed_once (c : ChannelState) (ops : List TeardownOp) :
    (runTeardown c ops).2 ≤ 1 ∧
    deactivate (deactivate c).state = ⟨(deactivate c).state, false⟩ ∧
    onClosed (deactivate c).state = ⟨(deactivate c).state, false⟩ ∧
    onClosed (onClosed c).state = ⟨(onClosed c).state, false⟩ ∧
    deactivate (onClosed c).state = ⟨(onClosed c).state, false⟩ := by
  refine ⟨?_, deactivate_no_link _ (deactivate_state_link c),
    onClosed_no_link _ (deactivate_state_link c),
    onClosed_no_link _ (onClosed_state_link c),
    deactivate_no_link _ (onClosed_state_link c)⟩
  cases ops with
  | nil => simp [runTeardown]
  | cons op rest =>
    simp only [runTeardown]
    rw [runTeardown_no_link (teardownStep c op).1 rest (teardownStep_link c op)]
    split <;> simp

/-- Witness for C9: a fresh activated channel closed twice fires the
closed callback exactly once (count 1 ≤ 1), and the listed second calls
are no-ops. -/
theorem teardown_idempotent_closed_once_witness :
    (runTeardown (activate (initChannel 5)).state [TeardownOp.closed, TeardownOp.closed]).2 ≤ 1 ∧
    deactivate (deactivate (activate (initChannel 5)).state).state =
      ⟨(deactivate (activate (initChannel 5)).state).state, false⟩ :=
  ⟨(teardown_idempotent_closed_once (activate (initChannel 5)).state
      [TeardownOp.closed, TeardownOp.closed]).1,
   (teardown_idempotent_closed_once (activate (initChannel 5)).state []).2.1⟩

/-- C8: `Channel::Activate` returns false with no state change exactly
when the link is gone; otherwise it returns true and the SDUs completed
before activation are delivered to the RX callback in FIFO arrival order
before any SDU completed after activation, so RX delivery preserves
arrival order across the pending/active boundary. -/
theorem activate_drains_pending_fifo (c : ChannelState) (xs ys : List Pdu)
    (hl : c.link = true) (ha : c.active = false) (hp : c.pendingRxSdus = []) :
    (runRx c xs).2 = [] ∧
    (activate (runRx c xs).1).ok = true ∧
    (activate (runRx c xs).1).drained ++ (runRx (activate (runRx c xs).1).state ys).2 =
      xs ++ ys ∧
    (∀ c1 : ChannelState, c1.link = false → activate c1 = ⟨c1, false, []⟩) := by
  have hrun := runRx_inactive xs c hl ha
  have hact : activate (runRx c xs).1 =
      ⟨{ (runRx c xs).1 with
          active := true
          rxCb := true
          closedCb := true
          pendingRxSdus := [] }, true, (runRx c xs).1.pendingRxSdus⟩ := by
    unfold activate
    rw [hrun]
    simp [hl]
  refine ⟨by rw [hrun], by rw [hact], ?_, ?_⟩
  · rw [hact]
    have h2 : (runRx c xs).1.pendingRxSdus = xs := by
      rw [hrun, hp]
      simp
    rw [h2]
    have h3 := runRx_active ys
      { (runRx c xs).1 with
          active := true
          rxCb := true
          closedCb := true
          pendingRxSdus := [] } (by simp [hrun, hl]) (by simp)
    rw [h3]
  · intro c1 h1
    unfold activate
    rw [h1]
    simp

/-- Witness for C8: two PDUs before activation and one after are delivered
in arrival order on a concrete channel. -/
theorem activate_drains_pending_fifo_witness :
    (runRx (initChannel 5) [[1], [2]]).2 = [] ∧
    (activate (runRx (initChannel 5) [[1], [2]]).1).ok = true ∧
    (activate (runRx (initChannel 5) [[1], [2]]).1).drained ++
      (runRx (activate (runRx (initChannel 5) [[1], [2]]).1).state [[3]]).2 =
      [[1], [2]] ++ [[3]] :=
  ⟨(activate_drains_pending_fifo (initChannel 5) [[1], [2]] [[3]] rfl rfl rfl).1,
   (activate_drains_pending_fifo (initChannel 5) [[1], [2]] [[3]] rfl rfl rfl).2.1,
   (activate_drains_pending_fifo (initChannel 5) [[1], [2]] [[3]] rfl rfl rfl).2.2.1⟩

open BtHost.Gap

/-! ## Helper lemmas: discovery manager -/

theorem maybeStartInquiry_state (m : DiscoveryManager) : (maybeStartInquiry m).1 = m := by
  unfold maybeStartInquiry
  split <;> rfl

theorem maybeStartInquiry_cmds (m : DiscoveryManager) :
    (maybeStartInquiry m).2 =
      if m.pending_discovery = [] ∧ m.discovering = [] then []
      else
        (if m.desired_inquiry_mode ≠ m.current_inquiry_mode then
          [HciCommand.writeInquiryMode m.desired_inquiry_mode]
        else []) ++ [HciCommand.inquiry] := by
  unfold maybeStartInquiry
  split <;> simp_all

theorem setInquiryScan_state (m : DiscoveryManager) : (setInquiryScan m).1 = m := rfl

theorem addDiscoverySession_zombie (m : DiscoveryManager) :
    (addDiscoverySession m).1.zombie_discovering = m.zombie_discovering := rfl

theorem resolvePendingLoop_zombie (st : Status) (l : List Nat) :
    ∀ m : DiscoveryManager,
      (resolvePendingLoop st m l).1.zombie_discovering = m.zombie_discovering := by
  induction l with
  | nil => intro m; rfl
  | cons cb rest ih =>
    intro m
    cases hst : st.isSuccess <;>
      simp [resolvePendingLoop, hst, ih, addDiscoverySession]

theorem invalidate_zombie (m : DiscoveryManager) :
    (invalidateDiscoverySessions m).1.zombie_discovering = m.zombie_discovering := rfl

theorem onInquiryEvent_commandStatus_zombie (m : DiscoveryManager) (st : Status) :
    (onInquiryEvent m (InquiryEvent.commandStatus st)).manager.zombie_discovering =
      m.zombie_discovering := by
  cases hst : st.isSuccess <;>
    simp [onInquiryEvent, InquiryEvent.status, hst, resolvePendingLoop_zombie,
      invalidateDiscoverySessions]

/-! ## Claim theorems: discovery sessions and zombies -/

/-- C2: `RemoveDiscoverySession` sends no HCI command (in particular no
Inquiry-Cancel, even for the last live session), moves a live session to
the zombie set, is a no-op for a session not in the live set (so the
live-to-zombie transition happens at most once), and the zombie set is
preserved by further `RequestDiscovery` calls and by Command-Status
resolution, being cleared only by the Inquiry-Complete event. -/
theorem removeDiscoverySession_zombie_transition
    (m : DiscoveryManager) (s cb : Nat) (st : Status) :
    (removeDiscoverySession m s).2 = [] ∧
    (s ∈ m.discovering →
      s ∉ (removeDiscoverySession m s).1.discovering ∧
      s ∈ (removeDiscoverySession m s).1.zombie_discovering) ∧
    (s ∉ m.discovering → removeDiscoverySession m s = (m, [])) ∧
    (requestDiscovery m cb).manager.zombie_discovering = m.zombie_discovering ∧
    (onInquiryEvent m (InquiryEvent.commandStatus st)).manager.zombie_discovering =
      m.zombie_discovering ∧
    (onInquiryEvent m (InquiryEvent.inquiryComplete st)).manager.zombie_discovering = [] := by
  refine ⟨?_, ?_, ?_, ?_, onInquiryEvent_commandStatus_zombie m st, ?_⟩
  · unfold removeDiscoverySession
    split <;> rfl
  · intro hmem
    constructor
    · simp [removeDiscoverySession, hmem, List.mem_filter]
    · simp [removeDiscoverySession, hmem]
  · intro hmem
    have hne : ∀ a ∈ m.discovering, a ≠ s := fun a ha heq => hmem (heq ▸ ha)
    have hfilter : m.discovering.filter (fun x => !decide (x = s)) = m.discovering := by
      rw [List.filter_eq_self]
      intro a ha
      simpa using hne a ha
    simp [removeDiscoverySession, hmem, hfilter]
  · unfold requestDiscovery
    split
    · rfl
    · split
      · simp [addDiscoverySession]
      · simp [maybeStartInquiry_state]
  · cases hst : st.isSuccess <;>
      simp [onInquiryEvent, InquiryEvent.status, hst, maybeStartInquiry_state,
        invalidateDiscoverySessions]

/-- Witness for C2: a concrete manager with one live session; removing it
sends nothing and lands it in the zombie set. -/
theorem removeDiscoverySession_zombie_transition_witness :
    (removeDiscoverySession
        { initialManager InquiryMode.standard with discovering := [3] } 3).2 = [] ∧
    3 ∉ (removeDiscoverySession
        { initialManager InquiryMode.standard with discovering := [3] } 3).1.discovering ∧
    3 ∈ (removeDiscoverySession
        { initialManager InquiryMode.standard with discovering := [3] } 3).1.zombie_discovering :=
  ⟨(removeDiscoverySession_zombie_transition
      { initialManager InquiryMode.standard with discovering := [3] } 3 0 Status.success).1,
   ((removeDiscoverySession_zombie_transition
      { initialManager InquiryMode.standard with discovering := [3] } 3 0 Status.success).2.1
      (by decide)).1,
   ((removeDiscoverySession_zombie_transition
      { initialManager InquiryMode.standard with discovering := [3] } 3 0 Status.success).2.1
      (by decide)).2⟩

/-- C3 counterexample: on a failure-status Inquiry-Complete event with a
pending discovery request still queued, demand remains afterwards yet no
new Inquiry command is issued, so "a new Inquiry command is issued if and
only if demand remains" fails as stated. -/
theorem inquiryComplete_error_demand_no_restart_cex :
    (onInquiryEvent
        { initialManager InquiryMode.standard with
            pending_discovery := [0], zombie_discovering := [7] }
        (InquiryEvent.inquiryComplete (Status.failure 1))).manager.pending_discovery = [0] ∧
    (onInquiryEvent
        { initialManager InquiryMode.standard with
            pending_discovery := [0], zombie_discovering := [7] }
        (InquiryEvent.inquiryComplete (Status.failure 1))).commands = [] ∧
    (onInquiryEvent
        { initialManager InquiryMode.standard with
            pending_discovery := [0], zombie_discovering := [7] }
        (InquiryEvent.inquiryComplete (Status.failure 1))).manager.zombie_discovering = [] := by
  decide

/-- C3 (amended): on every Inquiry-Complete event the zombie set is
cleared; on a success-status Inquiry-Complete a new Inquiry command is
issued if and only if demand remains (a live session or a pending request
exists), with no retry cap or backoff; on a failure-status
Inquiry-Complete the live sessions are invalidated and no new Inquiry is
issued. -/
theorem inquiryComplete_clears_zombies_and_restarts (m : DiscoveryManager) (st : Status) :
    (onInquiryEvent m (InquiryEvent.inquiryComplete st)).manager.zombie_discovering = [] ∧
    (st.isSuccess = true →
      ((onInquiryEvent m (InquiryEvent.inquiryComplete st)).commands ≠ [] ↔
        (m.pending_discovery ≠ [] ∨ m.discovering ≠ [])) ∧
      inquiryCount (onInquiryEvent m (InquiryEvent.inquiryComplete st)).commands =
        (if m.pending_discovery = [] ∧ m.discovering = [] then 0 else 1) ∧
      (onInquiryEvent m (InquiryEvent.inquiryComplete st)).results = []) ∧
    (st.isSuccess = false →
      (onInquiryEvent m (InquiryEvent.inquiryComplete st)).commands = [] ∧
      (onInquiryEvent m (InquiryEvent.inquiryComplete st)).erroredSessions = m.discovering ∧
      (onInquiryEvent m (InquiryEvent.inquiryComplete st)).manager.discovering = []) := by
  refine ⟨?_, ?_, ?_⟩
  · cases hst : st.isSuccess <;>
      simp [onInquiryEvent, InquiryEvent.status, hst, maybeStartInquiry_state,
        invalidateDiscoverySessions]
  · intro hst
    have hev : onInquiryEvent m (InquiryEvent.inquiryComplete st) =
        ⟨(maybeStartInquiry { m with zombie_discovering := [] }).1,
         (maybeStartInquiry { m with zombie_discovering := [] }).2, [], []⟩ := by
      simp [onInquiryEvent, InquiryEvent.status, hst]
    rw [hev]
    simp only [maybeStartInquiry_cmds]
    by_cases hd : m.pending_discovery = [] ∧ m.discovering = []
    · simp [hd, inquiryCount]
    · simp only [if_neg hd]
      refine ⟨?_, ?_, by trivial⟩
      · constructor
        · intro _
          rcases not_and_or.mp hd with h | h
          · exact Or.inl h
          · exact Or.inr h
        · intro _
          simp
      · split <;> simp [inquiryCount]
  · intro hst
    simp [onInquiryEvent, InquiryEvent.status, hst, invalidateDiscoverySessions]

/-- Witness for the amended C3: a successful Inquiry-Complete with one
live session clears the zombie set and issues exactly one new Inquiry. -/
theorem inquiryComplete_clears_zombies_and_restarts_witness :
    (onInquiryEvent
        { initialManager InquiryMode.standard with discovering := [4], zombie_discovering := [9] }
        (InquiryEvent.inquiryComplete Status.success)).manager.zombie_discovering = [] ∧
    inquiryCount (onInquiryEvent
        { initialManager InquiryMode.standard with discovering := [4], zombie_discovering := [9] }
        (InquiryEvent.inquiryComplete Status.success)).commands = 1 := by
  refine ⟨(inquiryComplete_clears_zombies_and_restarts
      { initialManager InquiryMode.standard with discovering := [4], zombie_discovering := [9] }
      Status.success).1, ?_⟩
  have h := ((inquiryComplete_clears_zombies_and_restarts
      { initialManager InquiryMode.standard with discovering := [4], zombie_discovering := [9] }
      Status.success).2.1 rfl).2.1
  simpa using h

/-! ## Claim theorems: discoverable mode -/

/-- C5 counterexample: a `RequestDiscoverable` call made while no
discoverable session exists but another request is already pending issues
no Read-Scan-Enable command (it only queues the callback), so "a call to
RequestDiscoverable when no discoverable sessions exist issues a
Read-Scan-Enable command" fails as stated. -/
theorem requestDiscoverable_pending_queue_cex :
    ({ initialManager InquiryMode.standard with
        pending_discoverable := [5] } : DiscoveryManager).discoverable = [] ∧
    (requestDiscoverable
        { initialManager InquiryMode.standard with pending_discoverable := [5] } 9).commands
      = [] ∧
    (requestDiscoverable
        { initialManager InquiryMode.standard with
            pending_discoverable := [5] } 9).manager.pending_discoverable = [5, 9] := by
  decide

/-- C5 (amended): a call to `RequestDiscoverable` when no discoverable
session exists and no discoverable request is already pending issues a
Read-Scan-Enable command, then a Write-Scan-Enable with the Inquiry bit
set only if that bit is not already set, after which every queued
callback resolves with a non-null session exactly when the status is
success (a call made while a pass is already pending only queues its
callback behind it); releasing the last discoverable session triggers the
inverse pass: Read-Scan-Enable then, if the Inquiry bit was set, a
Write-Scan-Enable with the bit cleared. -/
theorem requestDiscoverable_scan_enable_pass
    (m : DiscoveryManager) (cb s scanByte e : Nat) (st : Status)
    (hd : m.discoverable = []) (hp : m.pending_discoverable = []) :
    (requestDiscoverable m cb).commands = [HciCommand.readScanEnable] ∧
    (requestDiscoverable m cb).results = [] ∧
    (requestDiscoverable m cb).manager.pending_discoverable = [cb] ∧
    (Nat.land scanByte kInquiryScanBit ≠ 0 →
      (onReadScanEnable (requestDiscoverable m cb).manager Status.success scanByte).commands
        = [] ∧
      (onReadScanEnable (requestDiscoverable m cb).manager Status.success scanByte).results
        = [⟨cb, Status.success, some m.next_session⟩]) ∧
    (Nat.land scanByte kInquiryScanBit = 0 →
      (onReadScanEnable (requestDiscoverable m cb).manager Status.success scanByte).commands
        = [HciCommand.writeScanEnable (Nat.lor scanByte kInquiryScanBit)] ∧
      (onReadScanEnable (requestDiscoverable m cb).manager Status.success scanByte).results
        = [] ∧
      (st.isSuccess = true →
        (onWriteScanEnable
            (onReadScanEnable (requestDiscoverable m cb).manager Status.success
              scanByte).manager st).results = [⟨cb, st, some m.next_session⟩]) ∧
      (st.isSuccess = false →
        (onWriteScanEnable
            (onReadScanEnable (requestDiscoverable m cb).manager Status.success
              scanByte).manager st).results = [⟨cb, st, none⟩])) ∧
    ((onReadScanEnable (requestDiscoverable m cb).manager (Status.failure e) scanByte).commands
        = [] ∧
     (onReadScanEnable (requestDiscoverable m cb).manager (Status.failure e) scanByte).results
        = [⟨cb, Status.failure e, none⟩]) ∧
    (∀ m2 : DiscoveryManager, m2.discoverable = [s] → m2.pending_discoverable = [] →
      (removeDiscoverableSession m2 s).2 = [HciCommand.readScanEnable] ∧
      (Nat.land scanByte kInquiryScanBit ≠ 0 →
        (onReadScanEnable (removeDiscoverableSession m2 s).1 Status.success scanByte).commands
          = [HciCommand.writeScanEnable (Nat.land scanByte (255 - kInquiryScanBit))])) := by
  have hreq : requestDiscoverable m cb =
      ⟨{ m with pending_discoverable := [cb] }, [HciCommand.readScanEnable], []⟩ := by
    simp [requestDiscoverable, setInquiryScan, hd, hp]
  refine ⟨by rw [hreq], by rw [hreq], by rw [hreq], ?_, ?_, ?_, ?_⟩
  · intro hbit
    rw [hreq]
    simp [onReadScanEnable, Status.isSuccess, hd, hbit, resolveDiscoverableLoop,
      addDiscoverableSession]
  · intro hbit
    rw [hreq]
    refine ⟨?_, ?_, ?_, ?_⟩
    · simp [onReadScanEnable, Status.isSuccess, hd, hbit]
    · simp [onReadScanEnable, Status.isSuccess, hd, hbit]
    · intro hst
      have hread : (onReadScanEnable
          ({ m with pending_discoverable := [cb] } : DiscoveryManager)
          Status.success scanByte).manager = { m with pending_discoverable := [cb] } := by
        simp [onReadScanEnable, Status.isSuccess, hd, hbit]
      rw [hread]
      cases st with
      | success =>
        simp [onWriteScanEnable, Status.isSuccess, resolveDiscoverableLoop,
          addDiscoverableSession]
      | failure code => simp [Status.isSuccess] at hst
    · intro hst
      have hread : (onReadScanEnable
          ({ m with pending_discoverable := [cb] } : DiscoveryManager)
          Status.success scanByte).manager = { m with pending_discoverable := [cb] } := by
        simp [onReadScanEnable, Status.isSuccess, hd, hbit]
      rw [hread]
      cases st with
      | success => simp [Status.isSuccess] at hst
      | failure code =>
        simp [onWriteScanEnable, Status.isSuccess, resolveDiscoverableLoop]
  · rw [hreq]
    constructor
    · simp [onReadScanEnable, Status.isSuccess]
    · simp [onReadScanEnable, Status.isSuccess, resolveDiscoverableLoop]
  · intro m2 hd2 hp2
    have hrem : removeDiscoverableSession m2 s =
        ({ m2 with discoverable := [] }, [HciCommand.readScanEnable]) := by
      simp [removeDiscoverableSession, setInquiryScan, hd2]
    refine ⟨by rw [hrem], ?_⟩
    intro hbit
    rw [hrem]
    simp [onReadScanEnable, Status.isSuccess, hp2, hbit]

/-- Witness for the amended C5: from an idle manager, the request issues
Read-Scan-Enable; with the bit read as clear the Write-Scan-Enable with
the bit set follows; removing the last session with the bit set issues
the Write-Scan-Enable with the bit cleared. -/
theorem requestDiscoverable_scan_enable_pass_witness :
    (requestDiscoverable (initialManager InquiryMode.standard) 0).commands
      = [HciCommand.readScanEnable] ∧
    (onReadScanEnable (requestDiscoverable (initialManager InquiryMode.standard) 0).manager
        Status.success 0).commands
      = [HciCommand.writeScanEnable (Nat.lor 0 kInquiryScanBit)] ∧
    (onReadScanEnable
        (removeDiscoverableSession
          { initialManager InquiryMode.standard with discoverable := [3] } 3).1
        Status.success 1).commands
      = [HciCommand.writeScanEnable (Nat.land 1 (255 - kInquiryScanBit))] :=
  ⟨(requestDiscoverable_scan_enable_pass (initialManager InquiryMode.standard)
      0 3 0 7 Status.success rfl rfl).1,
   ((requestDiscoverable_scan_enable_pass (initialManager InquiryMode.standard)
      0 3 0 7 Status.success rfl rfl).2.2.2.2.1 (by decide)).1,
   ((requestDiscoverable_scan_enable_pass (initialManager InquiryMode.standard)
      0 3 1 7 Status.success rfl rfl).2.2.2.2.2.2
      { initialManager InquiryMode.standard with discoverable := [3] } rfl rfl).2 (by decide)⟩

/-! ## Claim theorems: local name update -/

set_option maxRecDepth 8000 in
/-- C6: evaluation at the failing input, a 240-byte name.  The command
sequencing and short-circuit behaviour hold (Write-Local-Name first, a
failure of it invokes the callback with that failure and sends nothing
further, success sends Write-Extended-Inquiry-Response), and the name is
truncated to the 238-byte EIR maximum with the Shortened-Local-Name type;
but the TLV length byte is `name.length() + 1 = 241`, not the
`238 + 1 = 239` consistent with the bytes actually written. -/
theorem updateLocalName_eir_length_bug :
    (updateLocalName (List.replicate 240 97)).commands
      = [HciCommand.writeLocalName (writeLocalNamePayload (List.replicate 240 97))] ∧
    (updateLocalName (List.replicate 240 97)).callbackStatus = none ∧
    onWriteLocalNameComplete (List.replicate 240 97) (Status.failure 5)
      = ⟨[], some (Status.failure 5)⟩ ∧
    (onWriteLocalNameComplete (List.replicate 240 97) Status.success).commands
      = [HciCommand.writeExtendedInquiryResponse
          (eirResponsePayload (List.replicate 240 97))] ∧
    eirResponsePayload (List.replicate 240 97)
      = 241 :: kShortenedLocalNameType :: List.replicate 238 97 ∧
    (eirResponsePayload (List.replicate 240 97)).take 2 ≠ [239, kShortenedLocalNameType] := by
  refine ⟨rfl, rfl, rfl, rfl, ?_, ?_⟩
  · show ((240 + 1) % 256) :: _ :: List.take _ _ ++ List.replicate _ 0 = _
    norm_num [eirResponsePayload, kExtendedInquiryResponseMaxNameBytes,
      kExtendedInquiryResponseBytes, kShortenedLocalNameType, List.take_replicate]
  · decide

/-! ## Helper lemmas: peer cache -/

theorem find?_append_of_none {α : Type} (p : α → Bool) (l1 l2 : List α)
    (h : l1.find? p = none) : (l1 ++ l2).find? p = l2.find? p := by
  induction l1 with
  | nil => rfl
  | cons x l ih =>
    by_cases hx : p x = true
    · rw [List.find?_cons_of_pos _ hx] at h
      exact absurd h (by simp)
    · rw [List.cons_append, List.find?_cons_of_neg _ (by simpa using hx)]
      rw [List.find?_cons_of_neg _ (by simpa using hx)] at h
      exact ih h

theorem map_setFlag_of_none (l : List Peer) (i : Nat)
    (h : l.find? (fun p => p.pid = i) = none) :
    l.map (fun p => if p.pid = i then { p with hasInquiryData := true } else p) = l := by
  induction l with
  | nil => rfl
  | cons x xs ih =>
    by_cases hx : x.pid = i
    · rw [List.find?_cons_of_pos _ (by simpa using hx)] at h
      exact absurd h (by simp)
    · rw [List.find?_cons_of_neg _ (by simpa using hx)] at h
      simp only [List.map_cons, if_neg hx, ih h]

/-! ## Claim theorems: inquiry results and peer names -/

/-- C4: an Inquiry-Result event carrying an address with no existing peer
record creates exactly one new (unnamed) peer with its inquiry data set,
and issues exactly one Remote-Name-Request for it; a second
Inquiry-Result for the same still-unnamed peer arriving before the name
request resolves creates no further peer and issues no further
Remote-Name-Request (deduplicated by the in-flight set). -/
theorem inquiryResult_new_peer_single_name_request
    (m : DiscoveryManager) (c : PeerCache) (a : Nat)
    (hfind : c.findByAddress a = none)
    (hid : c.findById c.nextId = none)
    (hreq : m.requesting_names.contains c.nextId = false) :
    (onInquiryResult m c [a]).cache.peers = c.peers ++ [⟨c.nextId, a, none, true⟩] ∧
    (onInquiryResult m c [a]).commands = [HciCommand.remoteNameRequest c.nextId] ∧
    (onInquiryResult (onInquiryResult m c [a]).manager (onInquiryResult m c [a]).cache
        [a]).cache.peers = c.peers ++ [⟨c.nextId, a, none, true⟩] ∧
    (onInquiryResult (onInquiryResult m c [a]).manager (onInquiryResult m c [a]).cache
        [a]).commands = [] := by
  have hid' : c.peers.find? (fun p => p.pid = c.nextId) = none := hid
  have hfind' : c.peers.find? (fun p => p.addr = a) = none := hfind
  have hmap : (c.peers ++ [(⟨c.nextId, a, none, false⟩ : Peer)]).map
      (fun p => if p.pid = c.nextId then { p with hasInquiryData := true } else p)
      = c.peers ++ [⟨c.nextId, a, none, true⟩] := by
    rw [List.map_append, map_setFlag_of_none c.peers c.nextId hid']
    simp
  have hproc : processInquiryResultLoop c [a] =
      (⟨c.peers ++ [⟨c.nextId, a, none, true⟩], c.nextId + 1⟩, [c.nextId]) := by
    simp only [processInquiryResultLoop, hfind, PeerCache.newPeer, PeerCache.setInquiryData,
      insertIfAbsent, List.contains_nil]
    simp [hmap]
  have hfound2 : (⟨c.peers ++ [⟨c.nextId, a, none, true⟩], c.nextId + 1⟩ :
      PeerCache).findByAddress a = some ⟨c.nextId, a, none, true⟩ := by
    show (c.peers ++ [(⟨c.nextId, a, none, true⟩ : Peer)]).find? (fun p => p.addr = a)
      = some ⟨c.nextId, a, none, true⟩
    rw [find?_append_of_none _ _ _ hfind']
    simp [List.find?]
  have hfoundId2 : (⟨c.peers ++ [⟨c.nextId, a, none, true⟩], c.nextId + 1⟩ :
      PeerCache).findById c.nextId = some ⟨c.nextId, a, none, true⟩ := by
    show (c.peers ++ [(⟨c.nextId, a, none, true⟩ : Peer)]).find? (fun p => p.pid = c.nextId)
      = some ⟨c.nextId, a, none, true⟩
    rw [find?_append_of_none _ _ _ hid']
    simp [List.find?]
  have hunnamed : peerUnnamed
      ⟨c.peers ++ [⟨c.nextId, a, none, true⟩], c.nextId + 1⟩ c.nextId = true := by
    simp [peerUnnamed, hfoundId2]
  have hrpn : requestPeerName m
      ⟨c.peers ++ [⟨c.nextId, a, none, true⟩], c.nextId + 1⟩ c.nextId
      = ({ m with requesting_names := m.requesting_names ++ [c.nextId] },
         [HciCommand.remoteNameRequest c.nextId]) := by
    simp only [requestPeerName, hreq, hfoundId2]
    simp
  have ho1 : onInquiryResult m c [a] =
      ⟨{ m with requesting_names := m.requesting_names ++ [c.nextId] },
       ⟨c.peers ++ [⟨c.nextId, a, none, true⟩], c.nextId + 1⟩,
       [HciCommand.remoteNameRequest c.nextId],
       m.discovering.map (fun s => (s, c.nextId))⟩ := by
    unfold onInquiryResult
    rw [hproc]
    simp [inquiryResultPeersLoop, hunnamed, hrpn]
  have hmap2 : (c.peers ++ [(⟨c.nextId, a, none, true⟩ : Peer)]).map
      (fun p => if p.pid = c.nextId then { p with hasInquiryData := true } else p)
      = c.peers ++ [⟨c.nextId, a, none, true⟩] := by
    rw [List.map_append, map_setFlag_of_none c.peers c.nextId hid']
    simp
  have hproc2 : processInquiryResultLoop
      ⟨c.peers ++ [⟨c.nextId, a, none, true⟩], c.nextId + 1⟩ [a] =
      (⟨c.peers ++ [⟨c.nextId, a, none, true⟩], c.nextId + 1⟩, [c.nextId]) := by
    simp only [processInquiryResultLoop, hfound2, PeerCache.setInquiryData,
      insertIfAbsent, List.contains_nil]
    simp [hmap2]
  have hrpn2 : requestPeerName
      { m with requesting_names := m.requesting_names ++ [c.nextId] }
      ⟨c.peers ++ [⟨c.nextId, a, none, true⟩], c.nextId + 1⟩ c.nextId
      = ({ m with requesting_names := m.requesting_names ++ [c.nextId] }, []) := by
    simp [requestPeerName]
  have ho2 : onInquiryResult
      { m with requesting_names := m.requesting_names ++ [c.nextId] }
      ⟨c.peers ++ [⟨c.nextId, a, none, true⟩], c.nextId + 1⟩ [a] =
      ⟨{ m with requesting_names := m.requesting_names ++ [c.nextId] },
       ⟨c.peers ++ [⟨c.nextId, a, none, true⟩], c.nextId + 1⟩, [],
       m.discovering.map (fun s => (s, c.nextId))⟩ := by
    unfold onInquiryResult
    rw [hproc2]
    simp [inquiryResultPeersLoop, hunnamed, hrpn2]
  rw [ho1]
  exact ⟨rfl, rfl, by rw [ho2], by rw [ho2]⟩

/-- Witness for C4: an empty cache and idle manager; address 42 creates
peer 0 and one Remote-Name-Request, and a repeat event adds nothing. -/
theorem inquiryResult_new_peer_single_name_request_witness :
    (onInquiryResult (initialManager InquiryMode.standard) ⟨[], 0⟩ [42]).cache.peers
      = [⟨0, 42, none, true⟩] ∧
    (onInquiryResult (initialManager InquiryMode.standard) ⟨[], 0⟩ [42]).commands
      = [HciCommand.remoteNameRequest 0] ∧
    (onInquiryResult
        (onInquiryResult (initialManager InquiryMode.standard) ⟨[], 0⟩ [42]).manager
        (onInquiryResult (initialManager InquiryMode.standard) ⟨[], 0⟩ [42]).cache
        [42]).commands = [] := by
  have h := inquiryResult_new_peer_single_name_request
    (initialManager InquiryMode.standard) ⟨[], 0⟩ 42 rfl rfl rfl
  exact ⟨h.1, h.2.1, h.2.2.2⟩

/-! ## Helper lemmas: pending-queue resolution -/

theorem resolvePendingLoop_failure (st : Status) (hst : st.isSuccess = false) :
    ∀ (l : List Nat) (m : DiscoveryManager),
      resolvePendingLoop st m l = (m, l.map (fun cb => ⟨cb, st, none⟩)) := by
  intro l
  induction l with
  | nil => intro m; rfl
  | cons cb rest ih =>
    intro m
    simp [resolvePendingLoop, hst, ih]

theorem resolvePendingLoop_success_results (st : Status) (hst : st.isSuccess = true) :
    ∀ (l : List Nat) (m : DiscoveryManager),
      ((resolvePendingLoop st m l).2.map DiscoveryResult.cb = l) ∧
      (∀ r ∈ (resolvePendingLoop st m l).2, r.status = st ∧
        ∃ k, r.session = some k ∧ m.next_session ≤ k) ∧
      ((resolvePendingLoop st m l).2.map DiscoveryResult.session).Nodup := by
  intro l
  induction l with
  | nil =>
    intro m
    exact ⟨rfl, by simp [resolvePendingLoop], by simp [resolvePendingLoop]⟩
  | cons cb rest ih =>
    intro m
    have hnext : (addDiscoverySession m).1.next_session = m.next_session + 1 := rfl
    have heq : resolvePendingLoop st m (cb :: rest) =
        ((resolvePendingLoop st (addDiscoverySession m).1 rest).1,
         ⟨cb, st, some m.next_session⟩ ::
           (resolvePendingLoop st (addDiscoverySession m).1 rest).2) := by
      simp [resolvePendingLoop, hst, addDiscoverySession]
    rw [heq]
    obtain ⟨ha, hb, hc⟩ := ih (addDiscoverySession m).1
    refine ⟨by simp [ha], ?_, ?_⟩
    · intro r hr
      rcases List.mem_cons.mp hr with h | h
      · subst h
        exact ⟨rfl, m.next_session, rfl, le_refl _⟩
      · obtain ⟨hs, k, hk, hle⟩ := hb r h
        rw [hnext] at hle
        exact ⟨hs, k, hk, by omega⟩
    · simp only [List.map_cons]
      rw [List.nodup_cons]
      refine ⟨?_, hc⟩
      intro hmem
      rw [List.mem_map] at hmem
      obtain ⟨r, hr, hrs⟩ := hmem
      obtain ⟨_, k, hk, hle⟩ := hb r hr
      rw [hnext] at hle
      rw [hk] at hrs
      have : k = m.next_session := by
        exact Option.some.inj hrs
      omega

theorem runRequests_pending_nonempty :
    ∀ (cbs : List Nat) (m : DiscoveryManager), m.pending_discovery ≠ [] →
      runRequests m cbs =
        ⟨{ m with pending_discovery := m.pending_discovery ++ cbs }, [], []⟩ := by
  intro cbs
  induction cbs with
  | nil =>
    intro m h
    simp [runRequests]
  | cons cb rest ih =>
    intro m h
    have hreq : requestDiscovery m cb =
        ⟨{ m with pending_discovery := m.pending_discovery ++ [cb] }, [], []⟩ := by
      simp [requestDiscovery, h]
    simp only [runRequests, hreq]
    rw [ih _ (by simp)]
    simp

/-! ## Claim theorems: discovery request coalescing -/

/-- C1: from a state with no live or zombie sessions and an empty pending
queue, a sequence of N ≥ 1 `RequestDiscovery` calls sends exactly one
Inquiry command and queues all N callbacks; when the Command-Status (or
Command-Complete, which the callback treats identically) event resolves,
all N queued callbacks are invoked in order: on success each receives a
distinct fresh non-null session, on failure all receive the same failure
status and a null session.  Calls made while a start is already pending
send no further command. -/
theorem requestDiscovery_coalesces_single_inquiry
    (m : DiscoveryManager) (cb : Nat) (cbs : List Nat) (st : Status)
    (hp : m.pending_discovery = []) (hd : m.discovering = [])
    (hz : m.zombie_discovering = []) :
    inquiryCount (runRequests m (cb :: cbs)).commands = 1 ∧
    (runRequests m (cb :: cbs)).results = [] ∧
    (runRequests m (cb :: cbs)).manager.pending_discovery = cb :: cbs ∧
    (onInquiryEvent (runRequests m (cb :: cbs)).manager
        (InquiryEvent.commandStatus st)).commands = [] ∧
    ((onInquiryEvent (runRequests m (cb :: cbs)).manager
        (InquiryEvent.commandStatus st)).results.map DiscoveryResult.cb) = cb :: cbs ∧
    (st.isSuccess = true →
      (∀ r ∈ (onInquiryEvent (runRequests m (cb :: cbs)).manager
          (InquiryEvent.commandStatus st)).results, r.status = st ∧ r.session ≠ none) ∧
      ((onInquiryEvent (runRequests m (cb :: cbs)).manager
          (InquiryEvent.commandStatus st)).results.map DiscoveryResult.session).Nodup) ∧
    (st.isSuccess = false →
      ∀ r ∈ (onInquiryEvent (runRequests m (cb :: cbs)).manager
          (InquiryEvent.commandStatus st)).results, r.status = st ∧ r.session = none) ∧
    (∀ m2 : DiscoveryManager, onInquiryEvent m2 (InquiryEvent.commandComplete st) =
        onInquiryEvent m2 (InquiryEvent.commandStatus st)) ∧
    (∀ (m3 : DiscoveryManager) (cbs2 : List Nat), m3.pending_discovery ≠ [] →
        (runRequests m3 cbs2).commands = []) := by
  have hreq1 : requestDiscovery m cb =
      ⟨{ m with pending_discovery := [cb] },
       (if m.desired_inquiry_mode ≠ m.current_inquiry_mode then
          [HciCommand.writeInquiryMode m.desired_inquiry_mode]
        else []) ++ [HciCommand.inquiry], []⟩ := by
    simp [requestDiscovery, maybeStartInquiry, hp, hd, hz]
  have hrun : runRequests m (cb :: cbs) =
      ⟨{ m with pending_discovery := cb :: cbs },
       (if m.desired_inquiry_mode ≠ m.current_inquiry_mode then
          [HciCommand.writeInquiryMode m.desired_inquiry_mode]
        else []) ++ [HciCommand.inquiry], []⟩ := by
    simp only [runRequests, hreq1]
    rw [runRequests_pending_nonempty cbs _ (by simp)]
    simp
  have hresolve : ∀ mv : DiscoveryManager, mv.pending_discovery = cb :: cbs →
      (onInquiryEvent mv (InquiryEvent.commandStatus st)).commands = [] ∧
      (onInquiryEvent mv (InquiryEvent.commandStatus st)).results =
        (resolvePendingLoop st
          { (if st.isSuccess then (mv, ([] : List Nat)) else invalidateDiscoverySessions mv).1
              with pending_discovery := [] } (cb :: cbs)).2 := by
    intro mv hmv
    cases hst : st.isSuccess <;>
      simp [onInquiryEvent, InquiryEvent.status, hst, hmv, invalidateDiscoverySessions]
  refine ⟨?_, ?_, ?_, ?_, ?_, ?_, ?_, ?_, ?_⟩
  · rw [hrun]
    dsimp only
    split <;> simp [inquiryCount]
  · rw [hrun]
  · rw [hrun]
  · exact (hresolve (runRequests m (cb :: cbs)).manager (by rw [hrun])).1
  · rw [(hresolve (runRequests m (cb :: cbs)).manager (by rw [hrun])).2]
    cases hst : st.isSuccess
    · rw [resolvePendingLoop_failure st hst]
      simp only [List.map_map]
      show List.map id (cb :: cbs) = cb :: cbs
      exact List.map_id _
    · exact (resolvePendingLoop_success_results st hst (cb :: cbs) _).1
  · intro hst
    rw [(hresolve (runRequests m (cb :: cbs)).manager (by rw [hrun])).2]
    obtain ⟨_, hb, hc⟩ := resolvePendingLoop_success_results st hst (cb :: cbs)
      { (if st.isSuccess then ((runRequests m (cb :: cbs)).manager, ([] : List Nat))
          else invalidateDiscoverySessions (runRequests m (cb :: cbs)).manager).1
          with pending_discovery := [] }
    refine ⟨?_, hc⟩
    intro r hr
    obtain ⟨hs, k, hk, _⟩ := hb r hr
    exact ⟨hs, by simp [hk]⟩
  · intro hst
    rw [(hresolve (runRequests m (cb :: cbs)).manager (by rw [hrun])).2]
    rw [resolvePendingLoop_failure st hst]
    intro r hr
    rw [List.mem_map] at hr
    obtain ⟨x, _, hx⟩ := hr
    subst hx
    exact ⟨rfl, rfl⟩
  · intro m2
    rfl
  · intro m3 cbs2 h
    rw [runRequests_pending_nonempty cbs2 m3 h]

/-- Witness for C1: three concrete `RequestDiscovery` calls from the fresh
manager send exactly one Inquiry and resolve all three callbacks when the
Command-Status event arrives. -/
theorem requestDiscovery_coalesces_single_inquiry_witness :
    inquiryCount (runRequests (initialManager InquiryMode.standard) [0, 1, 2]).commands = 1 ∧
    ((onInquiryEvent (runRequests (initialManager InquiryMode.standard) [0, 1, 2]).manager
        (InquiryEvent.commandStatus Status.success)).results.map DiscoveryResult.cb)
      = [0, 1, 2] :=
  ⟨(requestDiscovery_coalesces_single_inquiry (initialManager InquiryMode.standard) 0 [1, 2]
      Status.success rfl rfl rfl).1,
   (requestDiscovery_coalesces_single_inquiry (initialManager InquiryMode.standard) 0 [1, 2]
      Status.success rfl rfl rfl).2.2.2.2.1⟩
